import Mathlib

set_option maxRecDepth 4000

/-!
# mpvoice: handshake verification and the fetch-extract-download pipeline

A shallow embedding of `mpvoice.go`.

Modelling conventions.

* A Go `string` is a Lean `String`.  Go compares strings byte by byte; on valid
  UTF-8 that order is the order of the code points, which is the order of
  `String.data`.
* Calls into the outside world (the SHA-1 digest, the XML codec, the HTTP client,
  the identifier generator, the clock, the iteration order of a Go map) are fields
  of `Env`.  The handler is a pure function of the request and of `Env`.
* Side effects that the handler starts are recorded as a list of `Event`s.
-/

namespace Mpvoice

/-! ## Strings -/

/-- The double quote character. -/
def dquote : Char := Char.ofNat 34

/-- The line feed character, the only character the pattern `.` refuses. -/
def newline : Char := Char.ofNat 10

/-- Order test of `sort.Strings`: Go's `<` on strings. -/
def less (a b : String) : Bool := decide (a.data < b.data)

/-- Inner loop of `insertionSort` in package `sort`: the new element `x` moves
left while it is smaller than its left neighbour.  The sorted part is held
reversed, nearest neighbour first. -/
def bubble (x : String) : List String → List String
  | [] => [x]
  | y :: rest => if less x y then y :: bubble x rest else x :: y :: rest

/-- Model of `sort.Strings`; for slices of at most 12 elements the library runs
insertion sort. -/
def sortStrings (l : List String) : List String :=
  (l.foldl (fun rev x => bubble x rev) []).reverse

/-- Model of `strconv.Itoa` on a non-negative index. -/
def itoa (i : Nat) : String := Nat.repr i

/-- Model of `strings.Join`. -/
def join (l : List String) (sep : String) : String := sep.intercalate l

/-! ## Data model -/

/-- The inbound envelope `WxMsg`.  The fields `XMLName`, `Location_X` and
`Location_Y` are never read and are left out. -/
structure WxMsg where
  ToUserName : String := ""
  FromUserName : String := ""
  CreateTime : Int := 0
  MsgType : String := ""
  Content : String := ""
  PicUrl : String := ""
  MediaId : String := ""
  Format : String := ""
  Recognition : String := ""
  ThunbMediaId : String := ""
  Scale : Int := 0
  Label : String := ""
  MsgId : Int := 0
  deriving DecidableEq, Repr

/-- A string serialised as a CDATA section. -/
structure CDataNode where
  Val : String
  deriving DecidableEq, Repr

/-- The reply envelope `WxMsgText`; the field `XMLName` only names the root
element. -/
structure WxMsgText where
  ToUserName : CDataNode
  FromUserName : CDataNode
  CreateTime : Int
  MsgType : CDataNode
  Content : CDataNode
  deriving DecidableEq, Repr

/-- The form values of a request (`url.Values`): each key is absent or bound to a
list of values. -/
abbrev Values := String → Option (List String)

/-- Indexing `v[key]`: the bound list, or the nil slice for an absent key. -/
def Values.get (v : Values) (key : String) : List String := (v key).getD []

/-- What the handler reads of an `http.Request`. -/
structure Request where
  Method : String
  Form : Values
  Body : String

/-- The state of an `http.ResponseWriter`: whether the header has been sent, the
status code, and the body written so far.  A response whose header is never
written explicitly goes out with status 200. -/
structure ResponseWriter where
  wroteHeader : Bool := false
  status : Nat := 200
  body : String := ""
  deriving DecidableEq, Repr

/-- Model of `w.WriteHeader(code)`: only the first call has an effect. -/
def ResponseWriter.WriteHeader (w : ResponseWriter) (code : Nat) : ResponseWriter :=
  if w.wroteHeader then w else { w with wroteHeader := true, status := code }

/-- Model of `fmt.Fprint(w, s)`: the first write sends the header with status 200
when none was sent. -/
def ResponseWriter.Fprint (w : ResponseWriter) (s : String) : ResponseWriter :=
  let w1 := w.WriteHeader 200
  { w1 with body := w1.body ++ s }

/-- Effects started by the handler, in program order. -/
inductive Event where
  | sha1 (input : String)
  | httpGet (url : String)
  | getGuid
  | spawnDownload (url : String) (dest : String)
  | replyText (sender : String) (recipient : String) (content : String)
  deriving DecidableEq, Repr

/-- The outside world as seen by one request. -/
structure Env where
  /-- The order in which `range` visits the entries of a map. -/
  rangeOrder : List (String × String) → List (String × String)
  /-- The hex form `%x` of the SHA-1 digest of the bytes written to the hash. -/
  sha1hex : String → String
  /-- The decoder `xml.Unmarshal(data, &body)`: the envelope it leaves behind and
  the error it reports. -/
  unmarshal : String → WxMsg → WxMsg × Option String
  /-- The call `http.Get` followed by `ioutil.ReadAll`. -/
  httpGet : String → Except String String
  /-- The error of `ioutil.WriteFile(to, data, 0777)`, if any. -/
  writeFile : String → String → Option String
  /-- The token returned by `utils.GetGuid()` for this request. -/
  guid : String
  /-- The clock `time.Now().Unix()`. -/
  now : Int
  /-- The encoder `xml.Marshal`. -/
  marshal : WxMsgText → Except String String

/-! ## Parameter check and handshake -/

/-- Model of `checkParam`: the entries of `criterion` are visited in the given
order and the first absent key is reported. -/
def checkParam (v : Values) : List (String × String) → Option String
  | [] => none
  | (key, _) :: rest =>
    if (v key).isNone then some ("key '" ++ key ++ "' does not exists")
    else checkParam v rest

/-- The shared secret of the handshake. -/
def token : String := "glymestock123alarm"

/-- The keys the handshake requires. -/
def criterion : List (String × String) :=
  [("signature", ""), ("timestamp", ""), ("nonce", ""), ("echostr", "")]

/-- The four keys of the handshake. -/
def requiredKeys : List String := ["signature", "timestamp", "nonce", "echostr"]

/-- The bytes written to the hash: the three strings, sorted, one after another. -/
def hashInput (tok timestamp nonce : String) : String :=
  (sortStrings [tok, timestamp, nonce]).foldl (fun written s => written ++ s) ""

/-! ## Reply composer -/

/-- The envelope `msg` built by `replyText(from, to, content)`. -/
def replyEnvelope (env : Env) (sender recipient content : String) : WxMsgText :=
  { ToUserName := ⟨recipient⟩
    FromUserName := ⟨sender⟩
    CreateTime := env.now
    MsgType := ⟨"text"⟩
    Content := ⟨content⟩ }

/-- Model of `replyText(from, to, content)`: the envelope is handed to the
encoder; an encoder error yields the empty string. -/
def replyText (env : Env) (sender recipient content : String) : String :=
  match env.marshal (replyEnvelope env sender recipient content) with
  | .error _ => ""
  | .ok output => output

/-! ## Media identifier extractor

The pattern is `voice_encode_fileid="(.+?)"`.  Package `regexp` returns, at the
leftmost position where the pattern matches, the match a backtracking search
finds first; `.` accepts every character but the line feed, and the lazy `.+?`
takes one character and then leaves its loop at the first double quote. -/

/-- The literal part of the pattern in front of the group. -/
def voiceAttr : List Char := "voice_encode_fileid=\"".toList

/-- The loop of `.+?` once one character has been taken, followed by the closing
quote of the pattern.  Returns the rest of the capture and the number of
characters consumed. -/
def lazyTail : List Char → Option (List Char × Nat)
  | [] => none
  | c :: cs =>
    if c = dquote then some ([], 1)
    else if c = newline then none
    else match lazyTail cs with
      | none => none
      | some (cap, n) => some (c :: cap, n + 1)

/-- The group `(.+?)` followed by the closing quote. -/
def captureGroup : List Char → Option (List Char × Nat)
  | [] => none
  | c :: cs =>
    if c = newline then none
    else match lazyTail cs with
      | none => none
      | some (cap, n) => some (c :: cap, n + 1)

/-- A match of the whole pattern that starts at the head of `s`: the capture and
the length of the match. -/
def matchAt (s : List Char) : Option (List Char × Nat) :=
  if voiceAttr.isPrefixOf s then
    match captureGroup (s.drop voiceAttr.length) with
    | none => none
    | some (cap, n) => some (cap, voiceAttr.length + n)
  else none

/-- The scan of `FindAllStringSubmatch(s, -1)`.  With `skip = 0` a match is tried
at the head; after a match of length `n` the search resumes `n` characters
further.  Each item is the pair of the whole match and of the group. -/
def scanMatches : Nat → List Char → List (List String)
  | _, [] => []
  | skip + 1, _ :: cs => scanMatches skip cs
  | 0, c :: cs =>
    match matchAt (c :: cs) with
    | some (cap, n) =>
      [String.mk ((c :: cs).take n), String.mk cap] :: scanMatches (n - 1) cs
    | none => scanMatches 0 cs

/-- Model of `r.FindAllStringSubmatch(data, -1)`. -/
def FindAllStringSubmatch (data : String) : List (List String) :=
  scanMatches 0 data.toList

/-- The extraction loop of `get_voice`: the group of every match that has one. -/
def voiceCodes (data : String) : List String :=
  (FindAllStringSubmatch data).foldl
    (fun voice_code voice =>
      if voice.length > 1 then voice_code ++ [voice.getD 1 ""] else voice_code) []

/-! ## Texts for the extractor -/

/-- The number of places of a text where the literal part of the pattern starts. -/
def occurrences (text : List Char) : Nat :=
  (text.tails.filter (fun t => voiceAttr.isPrefixOf t)).length

/-- A text made of attributes, each followed by filler. -/
def attrs : List (List Char × List Char) → List Char
  | [] => []
  | (v, f) :: rest => voiceAttr ++ (v ++ dquote :: (f ++ attrs rest))

/-! ## Asset downloader -/

/-- The result of one run of `download`: the error returned and the file that
is in storage afterwards, if any. -/
structure DownloadResult where
  err : Option String
  written : Option (String × String)
  deriving DecidableEq, Repr

/-- Model of `download`: fetch `url` and write the body to the file `dest`.  A
failed fetch is returned; the error of the write is dropped, so a failed write
returns no error and leaves no file. -/
def download (env : Env) (url dest : String) : DownloadResult :=
  match env.httpGet url with
  | .error e => ⟨some e, none⟩
  | .ok data =>
    match env.writeFile dest data with
    | some _ => ⟨none, none⟩
    | none => ⟨none, some (dest, data)⟩

/-- The local `filename` of the download loop. -/
def filename (guid : String) (i : Nat) : String := guid ++ itoa i ++ ".mp3"

/-- The download loop of `get_voice` from index `i` on: the URLs appended to
`voice_path` and the tasks started. -/
def downloadLoop (guid to_dir : String) : Nat → List String → List String × List Event
  | _, [] => ([], [])
  | i, code :: rest =>
    let url := "http://res.wx.qq.com/voice/getvoice?mediaid=" ++ code
    let r := downloadLoop guid to_dir (i + 1) rest
    (("http://118.89.22.190/voice/" ++ filename guid i) :: r.1,
      Event.spawnDownload url (to_dir ++ filename guid i) :: r.2)

/-- What a call of `get_voice` returns and the effects it starts. -/
structure VoiceResult where
  voice_path : List String
  err : Option String
  events : List Event
  deriving DecidableEq, Repr

/-- Model of `get_voice`. -/
def get_voice (env : Env) (url to_dir : String) : VoiceResult :=
  match env.httpGet url with
  | .error e => { voice_path := [], err := some e, events := [Event.httpGet url] }
  | .ok data =>
    let voice_code := voiceCodes data
    let r := downloadLoop env.guid to_dir 0 voice_code
    { voice_path := r.1, err := none, events := Event.httpGet url :: Event.getGuid :: r.2 }

/-! ## Request dispatcher -/

/-- The handshake branch of `webWx` once the parameters have been checked. -/
def handshake (env : Env) (r : Request) (w : ResponseWriter) : ResponseWriter × List Event :=
  let signature := join (r.Form.get "signature") ""
  let timestamp := join (r.Form.get "timestamp") ""
  let nonce := join (r.Form.get "nonce") ""
  let echostr := join (r.Form.get "echostr") ""
  let written := hashInput token timestamp nonce
  let hashcode := env.sha1hex written
  if hashcode = signature then (w.Fprint echostr, [Event.sha1 written])
  else (w.Fprint "", [Event.sha1 written])

/-- The message branch of `webWx`. -/
def message (env : Env) (r : Request) (w : ResponseWriter) : ResponseWriter × List Event :=
  let body := (env.unmarshal r.Body {}).1
  let url := body.Content
  if url = "" then ((w.WriteHeader 400).Fprint "Wrong query", [])
  else
    let g := get_voice env url "/home/glyme/voice_store/"
    let content := join g.voice_path "\n"
    let replyMsg := replyText env body.ToUserName body.FromUserName content
    (w.Fprint replyMsg,
      g.events ++ [Event.replyText body.ToUserName body.FromUserName content])

/-- Model of `webWx`: the response and the effects started. -/
def webWx (env : Env) (r : Request) : ResponseWriter × List Event :=
  let w : ResponseWriter := {}
  if r.Method = "GET" then
    match checkParam r.Form (env.rangeOrder criterion) with
    | some err => ((w.WriteHeader 400).Fprint ("Error: " ++ err), [])
    | none => handshake env r w
  else if r.Method = "POST" then message env r w
  else (w, [])

/-! ## Decimal digits -/

/-- Value of a digit string read from the left, starting from `acc`. -/
def readDigits (acc : Nat) (ds : List Char) : Nat :=
  ds.foldl (fun a c => a * 10 + (c.toNat - 48)) acc

/-! ## A sample world

Concrete requests and a concrete `Env`, used to run the model. -/

/-- A stand-in for the digest: some fixed function of the bytes written. -/
def sampleDigest (written : String) : String := "sha1(" ++ written ++ ")"

/-- An inbound envelope as the platform posts it. -/
def sampleBody : String :=
  "<xml><ToUserName>gh_1</ToUserName><FromUserName>user_1</FromUserName>" ++
  "<CreateTime>1490000000</CreateTime><MsgType>text</MsgType>" ++
  "<Content>http://mp.weixin.qq.com/s/1</Content></xml>"

/-- An envelope cut off after its `Content` element. -/
def truncatedBody : String :=
  "<xml><ToUserName>gh_1</ToUserName><FromUserName>user_1</FromUserName>" ++
  "<Content>http://mp.weixin.qq.com/s/1</Content>"

/-- A decoder that knows `sampleBody` and `truncatedBody`.  On the truncated body
it fills the fields of the elements it has read and then reports the syntax
error; on every other body it reports an error and leaves the envelope
untouched. -/
def sampleUnmarshal (data : String) (body : WxMsg) : WxMsg × Option String :=
  if data = sampleBody then
    ({ body with
        ToUserName := "gh_1", FromUserName := "user_1", CreateTime := 1490000000,
        MsgType := "text", Content := "http://mp.weixin.qq.com/s/1" }, none)
  else if data = truncatedBody then
    ({ body with
        ToUserName := "gh_1", FromUserName := "user_1",
        Content := "http://mp.weixin.qq.com/s/1" },
      some "XML syntax error on line 1: unexpected EOF")
  else (body, some "EOF")

/-- A source page with two voice attributes. -/
def samplePage : String :=
  "<mpvoice voice_encode_fileid=\"AA\"></mpvoice>\n<mpvoice voice_encode_fileid=\"BB\"></mpvoice>"

/-- A network on which only the source page can be fetched. -/
def sampleHttpGet (url : String) : Except String String :=
  if url = "http://mp.weixin.qq.com/s/1" then .ok samplePage else .error "no such host"

/-- The text of a CDATA section: every `]]>` of the data is split over two
sections. -/
def cdataText : List Char → List Char
  | [] => []
  | ']' :: ']' :: '>' :: rest => "]]]]><![CDATA[>".toList ++ cdataText rest
  | c :: rest => c :: cdataText rest

/-- A CDATA node as the encoder writes it; empty data writes nothing. -/
def emitCDATA (s : String) : String :=
  if s = "" then "" else "<![CDATA[" ++ String.mk (cdataText s.toList) ++ "]]>"

/-- The encoder applied to a reply envelope. -/
def sampleMarshal (msg : WxMsgText) : Except String String :=
  .ok ("<xml><ToUserName>" ++ emitCDATA msg.ToUserName.Val ++ "</ToUserName>" ++
    "<FromUserName>" ++ emitCDATA msg.FromUserName.Val ++ "</FromUserName>" ++
    "<CreateTime>" ++ toString msg.CreateTime ++ "</CreateTime>" ++
    "<MsgType>" ++ emitCDATA msg.MsgType.Val ++ "</MsgType>" ++
    "<Content>" ++ emitCDATA msg.Content.Val ++ "</Content></xml>")

/-- The sample world. -/
def sampleEnv : Env :=
  { rangeOrder := fun entries => entries.reverse
    sha1hex := sampleDigest
    unmarshal := sampleUnmarshal
    httpGet := sampleHttpGet
    writeFile := fun _ _ => none
    guid := "0f8fad5bd9cb469fa16570867728950e"
    now := 1490000001
    marshal := sampleMarshal }

/-- The sample world with the network down. -/
def offlineEnv : Env := { sampleEnv with httpGet := fun _ => .error "network is unreachable" }

/-- Form values given as a list of bindings. -/
def formOf (bindings : List (String × List String)) : Values :=
  fun key => (bindings.find? (fun b => b.1 == key)).map (fun b => b.2)

/-- A well-formed handshake request with a matching signature. -/
def sampleHandshake : Request :=
  { Method := "GET"
    Form := formOf [("signature", ["sha1(1490000000glymestock123alarmxyz)"]),
      ("timestamp", ["1490000000"]), ("nonce", ["xyz"]), ("echostr", ["ping"])]
    Body := "" }

/-- A handshake request without `echostr`. -/
def sampleIncomplete : Request :=
  { Method := "GET"
    Form := formOf [("signature", ["sha1(1490000000glymestock123alarmxyz)"]),
      ("timestamp", ["1490000000"]), ("nonce", ["xyz"])]
    Body := "" }

/-- A message request that carries `sampleBody`. -/
def sampleMessage : Request :=
  { Method := "POST", Form := formOf [], Body := sampleBody }

/-- A message request that carries `truncatedBody`. -/
def sampleTruncated : Request :=
  { Method := "POST", Form := formOf [], Body := truncatedBody }

/-- A page whose attribute value holds a carriage return. -/
def carriagePage : String := "<mpvoice voice_encode_fileid=\"A\rB\"></mpvoice>"

/-- A message request with an empty body. -/
def sampleEmpty : Request :=
  { Method := "POST", Form := formOf [], Body := "" }

/-! ## Sorting -/

theorem less_iff (a b : String) : less a b = true ↔ a < b := by
  unfold less
  rw [decide_eq_true_iff]
  exact String.lt_iff_toList_lt.symm

theorem bubble_perm (x : String) (rev : List String) : (bubble x rev).Perm (x :: rev) := by
  induction rev with
  | nil => exact List.Perm.refl _
  | cons y rest ih =>
    unfold bubble
    split
    · exact (List.Perm.cons y ih).trans (List.Perm.swap x y rest)
    · exact List.Perm.refl _

theorem bubble_sorted (x : String) (rev : List String)
    (h : rev.Sorted (fun a b => b ≤ a)) : (bubble x rev).Sorted (fun a b => b ≤ a) := by
  induction rev with
  | nil => simp [bubble]
  | cons y rest ih =>
    unfold bubble
    have hy := List.sorted_cons.mp h
    split
    · rename_i hlt
      have hxy : x < y := (less_iff x y).mp hlt
      refine List.sorted_cons.mpr ⟨?_, ih hy.2⟩
      intro b hb
      rcases List.mem_cons.mp ((bubble_perm x rest).subset hb) with hbx | hbr
      · subst hbx; exact le_of_lt hxy
      · exact hy.1 b hbr
    · rename_i hlt
      have hyx : y ≤ x := not_lt.mp (fun hh => hlt ((less_iff x y).mpr hh))
      refine List.sorted_cons.mpr ⟨?_, h⟩
      intro b hb
      rcases List.mem_cons.mp hb with hby | hbr
      · subst hby; exact hyx
      · exact le_trans (hy.1 b hbr) hyx

theorem foldl_bubble (l : List String) : ∀ acc : List String, acc.Sorted (fun a b => b ≤ a) →
    (l.foldl (fun rev x => bubble x rev) acc).Sorted (fun a b => b ≤ a) ∧
    (l.foldl (fun rev x => bubble x rev) acc).Perm (l ++ acc) := by
  induction l with
  | nil => intro acc h; exact ⟨h, List.Perm.refl _⟩
  | cons x xs ih =>
    intro acc h
    have := ih (bubble x acc) (bubble_sorted x acc h)
    refine ⟨this.1, this.2.trans ?_⟩
    simp only [List.cons_append]
    exact ((List.Perm.append_left xs (bubble_perm x acc)).trans List.perm_middle)

theorem sortStrings_sorted (l : List String) : (sortStrings l).Sorted (fun a b => a ≤ b) := by
  unfold sortStrings
  have := (foldl_bubble l [] List.sorted_nil).1
  exact List.pairwise_reverse.mpr this

theorem sortStrings_perm (l : List String) : (sortStrings l).Perm l := by
  unfold sortStrings
  have := (foldl_bubble l [] List.sorted_nil).2
  simp only [List.append_nil] at this
  exact (List.reverse_perm _).trans this

theorem sortStrings_congr {l1 l2 : List String} (h : l1.Perm l2) : sortStrings l1 = sortStrings l2 :=
  List.eq_of_perm_of_sorted (((sortStrings_perm l1).trans h).trans (sortStrings_perm l2).symm)
    (sortStrings_sorted l1) (sortStrings_sorted l2)

/-- The bytes written to the hash are the concatenation of the sorted
rearrangement of the three strings. -/
theorem hashInput_spec (tok timestamp nonce : String) :
    ∃ l : List String, l.Perm [tok, timestamp, nonce] ∧ l.Sorted (fun a b => a ≤ b) ∧
      hashInput tok timestamp nonce = String.join l :=
  ⟨sortStrings [tok, timestamp, nonce], sortStrings_perm _, sortStrings_sorted _, rfl⟩

/-! ## Parameter check -/

theorem checkParam_eq_none_iff (v : Values) (l : List (String × String)) :
    checkParam v l = none ↔ ∀ p ∈ l, (v p.1).isSome = true := by
  induction l with
  | nil => simp [checkParam]
  | cons p rest ih =>
    obtain ⟨key, val⟩ := p
    unfold checkParam
    cases hv : v key with
    | none => simp [hv]
    | some vals => simp [hv, ih]

theorem checkParam_eq_some (v : Values) (l : List (String × String)) (err : String)
    (h : checkParam v l = some err) :
    ∃ p ∈ l, v p.1 = none ∧ err = "key '" ++ p.1 ++ "' does not exists" := by
  induction l with
  | nil => simp [checkParam] at h
  | cons p rest ih =>
    obtain ⟨key, val⟩ := p
    unfold checkParam at h
    cases hv : v key with
    | none =>
      simp [hv] at h
      exact ⟨(key, val), List.mem_cons_self _ _, hv, h.symm⟩
    | some vals =>
      simp [hv] at h
      obtain ⟨q, hq, hq2⟩ := ih h
      exact ⟨q, List.mem_cons_of_mem _ hq, hq2⟩

theorem mem_criterion_iff (p : String × String) :
    p ∈ criterion ↔ p.1 ∈ requiredKeys ∧ p.2 = "" := by
  obtain ⟨k, x⟩ := p
  simp only [criterion, requiredKeys, List.mem_cons, Prod.mk.injEq, List.mem_singleton,
    List.not_mem_nil, or_false]
  constructor
  · rintro (h | h | h | h) <;> simp [h.1, h.2]
  · rintro ⟨h | h | h | h, hx⟩ <;> simp [h, hx]

theorem checkParam_criterion (v : Values) (order : List (String × String))
    (hperm : order.Perm criterion) :
    checkParam v order = none ↔ ∀ key ∈ requiredKeys, (v key).isSome = true := by
  rw [checkParam_eq_none_iff]
  constructor
  · intro h key hk
    exact h (key, "") (hperm.mem_iff.mpr ((mem_criterion_iff _).mpr ⟨hk, rfl⟩))
  · intro h p hp
    exact h p.1 ((mem_criterion_iff p).mp (hperm.mem_iff.mp hp)).1

/-! ## Handshake -/

theorem Fprint_fresh (s : String) :
    ({} : ResponseWriter).Fprint s = { wroteHeader := true, status := 200, body := s } := by
  simp [ResponseWriter.Fprint, ResponseWriter.WriteHeader]

theorem Fprint_after_400 (s : String) :
    (({} : ResponseWriter).WriteHeader 400).Fprint s =
      { wroteHeader := true, status := 400, body := s } := by
  simp [ResponseWriter.Fprint, ResponseWriter.WriteHeader]

/-- C1: in the GET branch of `webWx`, when the four handshake keys are all
present, the status is 200 and the body is `echostr` if `signature` equals the
digest of the bytes written to the hash, and empty otherwise; those bytes are the
concatenation of the ascending rearrangement of token, timestamp and nonce, as in
the example `123abcxyz`. -/
theorem webWx_handshake (env : Env) (r : Request)
    (hget : r.Method = "GET")
    (horder : (env.rangeOrder criterion).Perm criterion)
    (hall : ∀ key ∈ requiredKeys, (r.Form key).isSome = true) :
    (webWx env r).1.status = 200 ∧
    (webWx env r).1.body =
      (if join (r.Form.get "signature") "" =
          env.sha1hex (hashInput token (join (r.Form.get "timestamp") "")
            (join (r.Form.get "nonce") ""))
        then join (r.Form.get "echostr") "" else "") ∧
    (∃ l : List String,
      l.Perm [token, join (r.Form.get "timestamp") "", join (r.Form.get "nonce") ""] ∧
      l.Sorted (fun a b => a ≤ b) ∧
      hashInput token (join (r.Form.get "timestamp") "") (join (r.Form.get "nonce") "") =
        String.join l) ∧
    hashInput "abc" "123" "xyz" = "123abcxyz" := by
  have hcheck := (checkParam_criterion r.Form _ horder).mpr hall
  refine ⟨?_, ?_, hashInput_spec _ _ _, by decide⟩
  · simp only [webWx, hget, if_true, hcheck, handshake]
    split <;> simp [Fprint_fresh]
  · simp only [webWx, hget, if_true, hcheck, handshake]
    by_cases h : env.sha1hex (hashInput token (join (r.Form.get "timestamp") "")
        (join (r.Form.get "nonce") "")) = join (r.Form.get "signature") ""
    · simp [h, Fprint_fresh]
    · have h2 : ¬ join (r.Form.get "signature") "" = env.sha1hex (hashInput token
          (join (r.Form.get "timestamp") "") (join (r.Form.get "nonce") "")) :=
        fun e => h e.symm
      simp [h, h2, Fprint_fresh]

/-- The sample handshake carries a matching signature and is answered with `ping`. -/
theorem webWx_handshake_witness :
    (webWx sampleEnv sampleHandshake).1.status = 200 ∧
    (webWx sampleEnv sampleHandshake).1.body = "ping" :=
  ⟨(webWx_handshake sampleEnv sampleHandshake rfl (List.reverse_perm _) (by decide)).1,
    ((webWx_handshake sampleEnv sampleHandshake rfl (List.reverse_perm _) (by decide)).2.1).trans
      (by decide)⟩

/-- C2: in the GET branch of `webWx`, `checkParam` returns no error exactly when
the four keys are all present; when one is absent it returns an error, the
response is status 400 with the error text as body, and nothing of the handshake
runs: no digest is computed and `echostr` is not written. -/
theorem webWx_missing_param (env : Env) (r : Request)
    (hget : r.Method = "GET")
    (horder : (env.rangeOrder criterion).Perm criterion) :
    (checkParam r.Form (env.rangeOrder criterion) = none ↔
      ∀ key ∈ requiredKeys, (r.Form key).isSome = true) ∧
    ((∃ key ∈ requiredKeys, r.Form key = none) →
      ∃ key ∈ requiredKeys, r.Form key = none ∧
        checkParam r.Form (env.rangeOrder criterion) =
          some ("key '" ++ key ++ "' does not exists") ∧
        webWx env r =
          ({ wroteHeader := true, status := 400,
             body := "Error: " ++ ("key '" ++ key ++ "' does not exists") }, [])) := by
  refine ⟨checkParam_criterion r.Form _ horder, ?_⟩
  rintro ⟨k, hk, hnone⟩
  cases hc : checkParam r.Form (env.rangeOrder criterion) with
  | none =>
    have := (checkParam_criterion r.Form _ horder).mp hc k hk
    simp [hnone] at this
  | some err =>
    obtain ⟨p, hp, hp1, hp2⟩ := checkParam_eq_some _ _ _ hc
    refine ⟨p.1, ((mem_criterion_iff p).mp (horder.mem_iff.mp hp)).1, hp1, by rw [hp2], ?_⟩
    simp only [webWx, hget, if_true, hc, Fprint_after_400, hp2]

/-- The sample request without `echostr` is rejected with status 400. -/
theorem webWx_missing_param_witness :
    ∃ key ∈ requiredKeys, sampleIncomplete.Form key = none ∧
      checkParam sampleIncomplete.Form (sampleEnv.rangeOrder criterion) =
        some ("key '" ++ key ++ "' does not exists") ∧
      webWx sampleEnv sampleIncomplete =
        ({ wroteHeader := true, status := 400,
           body := "Error: " ++ ("key '" ++ key ++ "' does not exists") }, []) :=
  (webWx_missing_param sampleEnv sampleIncomplete rfl (List.reverse_perm _)).2
    ⟨"echostr", by decide, by decide⟩

/-- C3: the bytes written to the hash, and so the digest, depend only on the
multiset of the three strings: every rearrangement of the three arguments gives
the same sorted concatenation and the same digest. -/
theorem hashInput_perm (a b c a' b' c' : String)
    (h : [a', b', c'].Perm [a, b, c]) :
    sortStrings [a', b', c'] = sortStrings [a, b, c] ∧
    hashInput a' b' c' = hashInput a b c ∧
    ∀ env : Env, env.sha1hex (hashInput a' b' c') = env.sha1hex (hashInput a b c) := by
  have hs := sortStrings_congr h
  have hi : hashInput a' b' c' = hashInput a b c := by unfold hashInput; rw [hs]
  exact ⟨hs, hi, fun env => by rw [hi]⟩

/-- Swapping the roles of `abc`, `123` and `xyz` leaves the hashed bytes unchanged. -/
theorem hashInput_perm_witness :
    hashInput "xyz" "abc" "123" = hashInput "abc" "123" "xyz" :=
  (hashInput_perm "abc" "123" "xyz" "xyz" "abc" "123" (by decide)).2.1

/-! ## Extractor -/

theorem lazyTail_spec : ∀ (s cap : List Char) (n : Nat), lazyTail s = some (cap, n) →
    dquote ∉ cap ∧ newline ∉ cap ∧ n = cap.length + 1 := by
  intro s
  induction s with
  | nil => intro cap n h; simp [lazyTail] at h
  | cons c cs ih =>
    intro cap n h
    unfold lazyTail at h
    by_cases hq : c = dquote
    · simp only [hq, if_true, Option.some.injEq, Prod.mk.injEq] at h
      obtain ⟨h1, h2⟩ := h
      subst h1; subst h2
      simp
    · by_cases hn : c = newline
      · rw [if_neg hq, if_pos hn] at h
        exact absurd h (by simp)
      · simp only [hq, hn, if_false] at h
        cases hl : lazyTail cs with
        | none => simp [hl] at h
        | some p =>
          obtain ⟨cap2, n2⟩ := p
          simp only [hl, Option.some.injEq, Prod.mk.injEq] at h
          obtain ⟨h1, h2⟩ := h
          obtain ⟨i1, i2, i3⟩ := ih cap2 n2 hl
          subst h1; subst h2
          refine ⟨?_, ?_, by simp [i3]⟩
          · simp only [List.mem_cons, not_or]; exact ⟨fun e => hq e.symm, i1⟩
          · simp only [List.mem_cons, not_or]; exact ⟨fun e => hn e.symm, i2⟩

theorem captureGroup_spec (s cap : List Char) (n : Nat) (h : captureGroup s = some (cap, n)) :
    cap ≠ [] ∧ newline ∉ cap ∧ dquote ∉ cap.tail ∧ n = cap.length + 1 := by
  cases s with
  | nil => simp [captureGroup] at h
  | cons c cs =>
    unfold captureGroup at h
    by_cases hn : c = newline
    · simp [hn] at h
    · simp only [hn, if_false] at h
      cases hl : lazyTail cs with
      | none => simp [hl] at h
      | some p =>
        obtain ⟨cap2, n2⟩ := p
        simp only [hl, Option.some.injEq, Prod.mk.injEq] at h
        obtain ⟨h1, h2⟩ := h
        obtain ⟨i1, i2, i3⟩ := lazyTail_spec cs cap2 n2 hl
        subst h1; subst h2
        refine ⟨by simp, ?_, by simpa using i1, by simp [i3]⟩
        simp only [List.mem_cons, not_or]; exact ⟨fun e => hn e.symm, i2⟩

theorem matchAt_spec (s cap : List Char) (n : Nat) (h : matchAt s = some (cap, n)) :
    voiceAttr.isPrefixOf s = true ∧ cap ≠ [] ∧ newline ∉ cap ∧ dquote ∉ cap.tail ∧
      n = voiceAttr.length + cap.length + 1 := by
  unfold matchAt at h
  by_cases hp : voiceAttr.isPrefixOf s = true
  · simp only [hp, if_true] at h
    cases hc : captureGroup (s.drop voiceAttr.length) with
    | none => simp [hc] at h
    | some p =>
      obtain ⟨cap2, n2⟩ := p
      simp only [hc, Option.some.injEq, Prod.mk.injEq] at h
      obtain ⟨h1, h2⟩ := h
      obtain ⟨i1, i2, i3, i4⟩ := captureGroup_spec _ cap2 n2 hc
      subst h1; subst h2
      exact ⟨hp, i1, i2, i3, by omega⟩
  · simp [hp] at h

/-- The groups found by the scan. -/
theorem scanMatches_shape : ∀ (s : List Char) (skip : Nat), ∀ voice ∈ scanMatches skip s,
    ∃ whole cap : List Char, voice = [String.mk whole, String.mk cap] ∧
      cap ≠ [] ∧ newline ∉ cap ∧ dquote ∉ cap.tail := by
  intro s
  induction s with
  | nil => intro skip voice h; simp [scanMatches] at h
  | cons c cs ih =>
    intro skip voice h
    cases skip with
    | succ k =>
      simp only [scanMatches] at h
      exact ih k voice h
    | zero =>
      simp only [scanMatches] at h
      cases hm : matchAt (c :: cs) with
      | none =>
        simp only [hm] at h
        exact ih 0 voice h
      | some p =>
        obtain ⟨cap, n⟩ := p
        simp only [hm, List.mem_cons] at h
        obtain ⟨_, i1, i2, i3, _⟩ := matchAt_spec _ cap n hm
        rcases h with h | h
        · exact ⟨_, cap, h, i1, i2, i3⟩
        · exact ih (n - 1) voice h

theorem foldl_voice_code (ms : List (List String)) (h : ∀ voice ∈ ms, voice.length > 1) :
    ∀ acc : List String,
      ms.foldl (fun voice_code voice =>
        if voice.length > 1 then voice_code ++ [voice.getD 1 ""] else voice_code) acc =
      acc ++ ms.map (fun voice => voice.getD 1 "") := by
  induction ms with
  | nil => intro acc; simp
  | cons m rest ih =>
    intro acc
    have hm : m.length > 1 := h m (List.mem_cons_self _ _)
    simp only [List.foldl_cons, hm, if_true, List.map_cons]
    rw [ih (fun v hv => h v (List.mem_cons_of_mem _ hv))]
    simp

theorem voiceCodes_eq_map (data : String) :
    voiceCodes data = (scanMatches 0 data.toList).map (fun voice => voice.getD 1 "") := by
  unfold voiceCodes FindAllStringSubmatch
  rw [foldl_voice_code]
  · simp
  · intro voice hv
    obtain ⟨whole, cap, he, _⟩ := scanMatches_shape _ _ voice hv
    simp [he]

theorem occurrences_cons (c : Char) (cs : List Char) :
    occurrences (c :: cs) = (if voiceAttr.isPrefixOf (c :: cs) then 1 else 0) + occurrences cs := by
  unfold occurrences
  simp only [List.tails, List.filter_cons]
  split
  · simp only [List.length_cons]; omega
  · omega

theorem scanMatches_length_le : ∀ (s : List Char) (skip : Nat),
    (scanMatches skip s).length ≤ occurrences s := by
  intro s
  induction s with
  | nil => intro skip; simp [scanMatches]
  | cons c cs ih =>
    intro skip
    rw [occurrences_cons]
    cases skip with
    | succ k =>
      simp only [scanMatches]
      have := ih k
      omega
    | zero =>
      simp only [scanMatches]
      cases hm : matchAt (c :: cs) with
      | none =>
        simp only [hm]
        have := ih 0
        omega
      | some p =>
        obtain ⟨cap, n⟩ := p
        obtain ⟨i0, _⟩ := matchAt_spec _ cap n hm
        simp only [hm, List.length_cons, i0, if_true]
        have := ih (n - 1)
        omega

/-- C10 as stated fails: the pattern `.` accepts the carriage return, so a
reference can contain a line break other than the line feed. -/
theorem voiceCodes_carriage_return :
    voiceCodes carriagePage = ["A\rB"] ∧
    ∃ code ∈ voiceCodes carriagePage, Char.ofNat 13 ∈ code.data := by
  decide

/-- C10, amended: every media reference extracted by `get_voice` is non-empty,
has no line feed U+000A, and has no double quote except possibly as its first
character; and there are at most as many references as places of the text where
`voice_encode_fileid="` starts. -/
theorem voiceCodes_sound (data : String) :
    (∀ code ∈ voiceCodes data,
      code ≠ "" ∧ newline ∉ code.data ∧ dquote ∉ code.data.tail) ∧
    (voiceCodes data).length ≤ occurrences data.toList := by
  rw [voiceCodes_eq_map]
  refine ⟨?_, by rw [List.length_map]; exact scanMatches_length_le _ _⟩
  intro code hc
  obtain ⟨voice, hv, he⟩ := List.mem_map.mp hc
  obtain ⟨whole, cap, hw, i1, i2, i3⟩ := scanMatches_shape _ _ voice hv
  subst hw
  simp only [List.getD_cons_succ, List.getD_cons_zero] at he
  subst he
  refine ⟨?_, i2, i3⟩
  intro h
  exact i1 (congrArg String.data h)

theorem lazyTail_complete : ∀ (v tail : List Char), dquote ∉ v → newline ∉ v →
    lazyTail (v ++ dquote :: tail) = some (v, v.length + 1) := by
  intro v
  induction v with
  | nil => intro tail _ _; simp [lazyTail]
  | cons c cs ih =>
    intro tail hq hn
    simp only [List.mem_cons, not_or] at hq hn
    have hq1 : ¬ c = dquote := fun e => hq.1 e.symm
    have hn1 : ¬ c = newline := fun e => hn.1 e.symm
    rw [List.cons_append]
    unfold lazyTail
    rw [if_neg hq1, if_neg hn1, ih tail hq.2 hn.2]
    rfl

theorem captureGroup_complete (v tail : List Char) (hne : v ≠ []) (hq : dquote ∉ v)
    (hn : newline ∉ v) : captureGroup (v ++ dquote :: tail) = some (v, v.length + 1) := by
  cases v with
  | nil => exact absurd rfl hne
  | cons c cs =>
    simp only [List.mem_cons, not_or] at hq hn
    have hn1 : ¬ c = newline := fun e => hn.1 e.symm
    rw [List.cons_append]
    unfold captureGroup
    simp only
    rw [if_neg hn1, lazyTail_complete cs tail hq.2 hn.2]
    rfl

theorem matchAt_attr (v tail : List Char) (hne : v ≠ []) (hq : dquote ∉ v)
    (hn : newline ∉ v) :
    matchAt (voiceAttr ++ (v ++ dquote :: tail)) =
      some (v, voiceAttr.length + (v.length + 1)) := by
  have hp : voiceAttr.isPrefixOf (voiceAttr ++ (v ++ dquote :: tail)) = true :=
    List.isPrefixOf_iff_prefix.mpr (List.prefix_append _ _)
  simp only [matchAt, hp, if_true, List.drop_left, captureGroup_complete v tail hne hq hn]

theorem scanMatches_skip (xs ys : List Char) :
    scanMatches xs.length (xs ++ ys) = scanMatches 0 ys := by
  induction xs with
  | nil => rfl
  | cons c cs ih => simpa [scanMatches] using ih

theorem scanMatches_attr (v tail : List Char) (hne : v ≠ []) (hq : dquote ∉ v)
    (hn : newline ∉ v) :
    ∃ whole : String, scanMatches 0 (voiceAttr ++ (v ++ dquote :: tail)) =
      [whole, String.mk v] :: scanMatches 0 tail := by
  have hm := matchAt_attr v tail hne hq hn
  have hcons : voiceAttr ++ (v ++ dquote :: tail) =
      'v' :: ((voiceAttr.tail ++ v ++ [dquote]) ++ tail) := by
    have : voiceAttr = 'v' :: voiceAttr.tail := by decide
    conv_lhs => rw [this]
    simp
  rw [hcons] at hm ⊢
  have hlen : voiceAttr.length + (v.length + 1) - 1 = (voiceAttr.tail ++ v ++ [dquote]).length := by
    have : voiceAttr.length = voiceAttr.tail.length + 1 := by decide
    simp only [List.length_append, List.length_cons, List.length_nil]
    omega
  simp only [scanMatches, hm]
  rw [hlen, scanMatches_skip]
  exact ⟨_, rfl⟩

theorem voiceAttr_no_border : ∀ k < voiceAttr.length, 0 < k → voiceAttr[k]? ≠ voiceAttr[0]? := by
  decide

theorem not_isPrefixOf_filler (c : Char) (f rest : List Char)
    (hf : ¬ voiceAttr <:+: (c :: f)) (hrest : rest = [] ∨ voiceAttr <+: rest) :
    ¬ voiceAttr <+: (c :: f) ++ rest := by
  intro hp
  rcases hrest with h0 | hpre
  · subst h0
    rw [List.append_nil] at hp
    exact hf hp.isInfix
  · by_cases hle : voiceAttr.length ≤ (c :: f).length
    · exact hf ( List.prefix_of_prefix_length_le hp (List.prefix_append _ _) hle).isInfix
    · have hk : (c :: f).length < voiceAttr.length := Nat.lt_of_not_le hle
      obtain ⟨t, ht⟩ := hp
      obtain ⟨u, hu⟩ := hpre
      have e1 : ((c :: f) ++ rest)[(c :: f).length]? = voiceAttr[(c :: f).length]? := by
        rw [← ht, List.getElem?_append_left hk]
      have e2 : ((c :: f) ++ rest)[(c :: f).length]? = voiceAttr[0]? := by
        rw [List.getElem?_append_right (Nat.le_refl _), Nat.sub_self, ← hu,
          List.getElem?_append_left (by decide)]
      exact voiceAttr_no_border _ hk (by simp) (e1.symm.trans e2)

theorem scanMatches_filler : ∀ (f rest : List Char), ¬ voiceAttr <:+: f →
    (rest = [] ∨ voiceAttr <+: rest) → scanMatches 0 (f ++ rest) = scanMatches 0 rest := by
  intro f
  induction f with
  | nil => intro rest _ _; rfl
  | cons c cs ih =>
    intro rest hf hrest
    have hnp : ¬ voiceAttr.isPrefixOf (c :: (cs ++ rest)) = true := fun h =>
      not_isPrefixOf_filler c cs rest hf hrest (List.isPrefixOf_iff_prefix.mp h)
    have hm : matchAt (c :: (cs ++ rest)) = none := by
      unfold matchAt
      rw [if_neg hnp]
    have hcs : ¬ voiceAttr <:+: cs := fun h => hf (h.trans (List.suffix_cons c cs).isInfix)
    have hstep : scanMatches 0 (c :: (cs ++ rest)) = scanMatches 0 (cs ++ rest) := by
      rw [scanMatches, hm]
    exact hstep.trans (ih rest hcs hrest)

theorem attrs_start (items : List (List Char × List Char)) :
    attrs items = [] ∨ voiceAttr <+: attrs items := by
  cases items with
  | nil => exact Or.inl rfl
  | cons p rest => exact Or.inr (List.prefix_append _ _)

theorem scanMatches_attrs : ∀ (items : List (List Char × List Char)),
    (∀ p ∈ items, p.1 ≠ [] ∧ dquote ∉ p.1 ∧ newline ∉ p.1 ∧ ¬ voiceAttr <:+: p.2) →
    ∀ f0 : List Char, ¬ voiceAttr <:+: f0 →
      (scanMatches 0 (f0 ++ attrs items)).map (fun voice => voice.getD 1 "") =
        items.map (fun p => String.mk p.1) := by
  intro items
  induction items with
  | nil =>
    intro _ f0 hf0
    rw [scanMatches_filler f0 _ hf0 (attrs_start [])]
    rfl
  | cons p rest ih =>
    intro h f0 hf0
    obtain ⟨v, f⟩ := p
    obtain ⟨h1, h2, h3, h4⟩ := h (v, f) (List.mem_cons_self _ _)
    rw [scanMatches_filler f0 _ hf0 (attrs_start _)]
    obtain ⟨whole, hw⟩ := scanMatches_attr v (f ++ attrs rest) h1 h2 h3
    simp only [attrs, hw, List.map_cons, List.getD_cons_succ, List.getD_cons_zero]
    rw [ih (fun q hq => h q (List.mem_cons_of_mem _ hq)) f h4]

theorem foldl_append_string (l : List String) : ∀ acc : String,
    l.foldl (fun r s => r ++ s) acc = acc ++ String.join l := by
  induction l with
  | nil => intro acc; simp [String.join]
  | cons x xs ih =>
    intro acc
    have h1 := ih (acc ++ x)
    have h2 := ih ("" ++ x)
    simp only [String.join, List.foldl_cons] at h1 h2 ⊢
    rw [h1, h2, String.append_assoc, String.empty_append]

theorem join_cons (x : String) (xs : List String) :
    String.join (x :: xs) = x ++ String.join xs := by
  have := foldl_append_string xs ("" ++ x)
  simp only [String.empty_append] at this
  simpa [String.join] using this

theorem data_attrs (items : List (String × String)) :
    (String.join (items.map
      (fun p => "voice_encode_fileid=\"" ++ p.1 ++ "\"" ++ p.2))).data =
      attrs (items.map (fun p => (p.1.data, p.2.data))) := by
  induction items with
  | nil => rfl
  | cons p rest ih =>
    simp only [List.map_cons, join_cons, String.data_append, ih, attrs]
    simp only [List.append_assoc]
    rfl

/-- C4: on a text built from filler that does not contain `voice_encode_fileid="`
and, in order, one attribute `voice_encode_fileid="v"` for each value `v` of a
list, each value non-empty and free of double quotes and line feeds, the
extraction step of `get_voice` returns exactly the values, in order and with
duplicates kept; a text without the attribute gives the empty sequence, and the
attributes for `AA` and `BB` give `AA`, `BB`. -/
theorem voiceCodes_complete (f0 : String) (items : List (String × String))
    (hf0 : ¬ voiceAttr <:+: f0.data)
    (hitems : ∀ p ∈ items,
      p.1 ≠ "" ∧ dquote ∉ p.1.data ∧ newline ∉ p.1.data ∧ ¬ voiceAttr <:+: p.2.data) :
    voiceCodes (f0 ++ String.join (items.map
      (fun p => "voice_encode_fileid=\"" ++ p.1 ++ "\"" ++ p.2))) = items.map Prod.fst ∧
    voiceCodes f0 = [] ∧
    voiceCodes ("<mpvoice voice_encode_fileid=\"AA\"></mpvoice>" ++
      "<mpvoice voice_encode_fileid=\"BB\"></mpvoice>") = ["AA", "BB"] := by
  have key : ∀ its : List (String × String),
      (∀ p ∈ its,
        p.1 ≠ "" ∧ dquote ∉ p.1.data ∧ newline ∉ p.1.data ∧ ¬ voiceAttr <:+: p.2.data) →
      voiceCodes (f0 ++ String.join (its.map
        (fun p => "voice_encode_fileid=\"" ++ p.1 ++ "\"" ++ p.2))) = its.map Prod.fst := by
    intro its hits
    rw [voiceCodes_eq_map]
    have hd : (f0 ++ String.join (its.map
        (fun p => "voice_encode_fileid=\"" ++ p.1 ++ "\"" ++ p.2))).toList =
        f0.data ++ attrs (its.map (fun p => (p.1.data, p.2.data))) := by
      rw [String.toList, String.data_append, data_attrs]
    rw [hd, scanMatches_attrs _ _ f0.data hf0]
    · rw [List.map_map]
      rfl
    · intro q hq
      obtain ⟨p, hp, hpq⟩ := List.mem_map.mp hq
      obtain ⟨h1, h2, h3, h4⟩ := hits p hp
      subst hpq
      exact ⟨fun h => h1 (String.ext h), h2, h3, h4⟩
  refine ⟨key items hitems, ?_, by decide⟩
  have := key [] (by simp)
  simpa [String.join] using this

/-- A text with the same attribute twice yields the value twice. -/
theorem voiceCodes_complete_witness :
    voiceCodes ("<p>" ++ String.join ([("AA", "<br>"), ("AA", "</p>")].map
      (fun p => "voice_encode_fileid=\"" ++ p.1 ++ "\"" ++ p.2))) = ["AA", "AA"] :=
  (voiceCodes_complete "<p>" [("AA", "<br>"), ("AA", "</p>")] (by decide) (by decide)).1

/-! ## File names and URLs -/

theorem digitChar_value (k : Nat) (h : k < 10) : (Nat.digitChar k).toNat - 48 = k := by
  interval_cases k <;> decide

theorem readDigits_toDigitsCore (fuel : Nat) : ∀ (n : Nat) (ds : List Char), n < fuel →
    readDigits 0 (Nat.toDigitsCore 10 fuel n ds) = readDigits n ds := by
  induction fuel with
  | zero => intro n ds h; omega
  | succ fuel ih =>
    intro n ds h
    unfold Nat.toDigitsCore
    simp only
    split
    · rename_i h0
      have hn : n < 10 := by omega
      simp only [readDigits, List.foldl_cons, Nat.zero_mul, Nat.zero_add]
      rw [digitChar_value _ (Nat.mod_lt _ (by decide)), Nat.mod_eq_of_lt hn]
    · rename_i h0
      rw [ih (n / 10) _ (by omega)]
      simp only [readDigits, List.foldl_cons]
      rw [digitChar_value _ (Nat.mod_lt _ (by decide)), Nat.div_add_mod']

theorem itoa_injective : Function.Injective itoa := by
  intro i j h
  have hd : Nat.toDigits 10 i = Nat.toDigits 10 j := by
    have := congrArg String.data h
    simpa [itoa, Nat.repr, List.asString] using this
  have hi := readDigits_toDigitsCore (i + 1) i [] (Nat.lt_succ_self i)
  have hj := readDigits_toDigitsCore (j + 1) j [] (Nat.lt_succ_self j)
  unfold Nat.toDigits at hd
  rw [hd, hj] at hi
  simpa [readDigits] using hi.symm

theorem filename_injective_of_length (g1 g2 : String) (i j : Nat)
    (hlen : g1.length = g2.length) (h : filename g1 i = filename g2 j) : g1 = g2 ∧ i = j := by
  have hd := congrArg String.data h
  simp only [filename, String.data_append, List.append_assoc] at hd
  have := List.append_inj hd (show g1.data.length = g2.data.length from hlen)
  refine ⟨String.ext this.1, ?_⟩
  have h2 := List.append_cancel_right this.2
  exact itoa_injective (String.ext h2)


/-- The URL of the asset with index `i` of the batch with token `g`. -/
theorem voiceUrl_assoc (g : String) (i : Nat) :
    "http://118.89.22.190/voice/" ++ filename g i =
      "http://118.89.22.190/voice/" ++ g ++ itoa i ++ ".mp3" := by
  simp only [filename, String.append_assoc]

theorem voiceUrl_injective (g : String) :
    Function.Injective (fun i : Nat => "http://118.89.22.190/voice/" ++ g ++ itoa i ++ ".mp3") := by
  intro i j h
  simp only [← voiceUrl_assoc] at h
  have hd := congrArg String.data h
  simp only [String.data_append] at hd
  exact (filename_injective_of_length g g i j rfl (String.ext (List.append_cancel_left hd))).2

theorem downloadLoop_urls (g to_dir : String) (codes : List String) : ∀ i : Nat,
    (downloadLoop g to_dir i codes).1 =
      (List.range' i codes.length).map
        (fun k => "http://118.89.22.190/voice/" ++ g ++ itoa k ++ ".mp3") := by
  induction codes with
  | nil => intro i; simp [downloadLoop]
  | cons code rest ih =>
    intro i
    simp only [downloadLoop, List.length_cons, List.range'_succ, List.map_cons, ih (i + 1),
      voiceUrl_assoc]

/-- C5: when the source page is fetched, `get_voice` returns no error and a URL
sequence with one URL per extracted reference; the URL at index `i` is
`http://118.89.22.190/voice/` + guid + decimal `i` + `.mp3`, the URLs are pairwise
distinct, and the sequence is the same in every world that agrees on the fetched
page and on the token, whatever happens to the downloads. -/
theorem get_voice_urls (env : Env) (url to_dir data : String)
    (hfetch : env.httpGet url = .ok data) :
    (get_voice env url to_dir).err = none ∧
    (get_voice env url to_dir).voice_path.length = (voiceCodes data).length ∧
    (∀ i : Nat, i < (voiceCodes data).length →
      (get_voice env url to_dir).voice_path[i]? =
        some ("http://118.89.22.190/voice/" ++ env.guid ++ itoa i ++ ".mp3")) ∧
    (get_voice env url to_dir).voice_path.Nodup ∧
    (∀ env2 : Env, env2.httpGet url = .ok data → env2.guid = env.guid →
      (get_voice env2 url to_dir).voice_path = (get_voice env url to_dir).voice_path) := by
  have hpath : ∀ e : Env, e.httpGet url = .ok data →
      (get_voice e url to_dir).voice_path =
        (List.range (voiceCodes data).length).map
          (fun k => "http://118.89.22.190/voice/" ++ e.guid ++ itoa k ++ ".mp3") := by
    intro e he
    simp only [get_voice, he, downloadLoop_urls, List.range_eq_range']
  refine ⟨by simp only [get_voice, hfetch], ?_, ?_, ?_, ?_⟩
  · rw [hpath env hfetch, List.length_map, List.length_range]
  · intro i hi
    rw [hpath env hfetch, List.getElem?_map, List.getElem?_range hi]
    rfl
  · rw [hpath env hfetch]
    exact (List.nodup_range _).map (voiceUrl_injective env.guid)
  · intro env2 h2 hg
    rw [hpath env hfetch, hpath env2 h2, hg]

/-- The URLs returned for the sample page are pairwise distinct. -/
theorem get_voice_urls_witness :
    (get_voice sampleEnv "http://mp.weixin.qq.com/s/1" "/home/glyme/voice_store/").voice_path.Nodup :=
  (get_voice_urls sampleEnv "http://mp.weixin.qq.com/s/1" "/home/glyme/voice_store/" samplePage
    rfl).2.2.2.1

/-! ## Message flow -/

/-- C6 as stated fails: a body that fails to parse is not always treated as
empty content.  The decoder reports an error on the truncated envelope after it
has filled `Content`; `webWx` drops the error, fetches the page and answers with
status 200 and a reply. -/
theorem webWx_parse_failure_proceeds :
    (sampleEnv.unmarshal sampleTruncated.Body {}).2 =
      some "XML syntax error on line 1: unexpected EOF" ∧
    (webWx sampleEnv sampleTruncated).1.status = 200 ∧
    (webWx sampleEnv sampleTruncated).1.body ≠ "Wrong query" ∧
    Event.httpGet "http://mp.weixin.qq.com/s/1" ∈ (webWx sampleEnv sampleTruncated).2 ∧
    Event.replyText "gh_1" "user_1"
      ("http://118.89.22.190/voice/0f8fad5bd9cb469fa16570867728950e0.mp3\n" ++
       "http://118.89.22.190/voice/0f8fad5bd9cb469fa16570867728950e1.mp3") ∈
      (webWx sampleEnv sampleTruncated).2 := by
  decide

/-- C6, amended: a POST request whose decoded envelope has empty `Content`, whether
the decoder reported an error or not, is answered with status 400 and the body
`Wrong query`, and starts nothing: no fetch, no identifier, no download task, no
reply.  A body that fails to parse takes this path when the failed decoding
leaves `Content` empty. -/
theorem webWx_empty_content (env : Env) (r : Request)
    (hpost : r.Method = "POST")
    (hempty : (env.unmarshal r.Body {}).1.Content = "") :
    webWx env r = ({ wroteHeader := true, status := 400, body := "Wrong query" }, []) := by
  have hne : ¬ ("POST" : String) = "GET" := by decide
  simp only [webWx, hpost, hne, if_false, if_true, message, hempty, Fprint_after_400]

/-- An empty body fails to decode and is answered with `Wrong query`. -/
theorem webWx_empty_content_witness :
    (sampleEnv.unmarshal sampleEmpty.Body {}).2 = some "EOF" ∧
    webWx sampleEnv sampleEmpty =
      ({ wroteHeader := true, status := 400, body := "Wrong query" }, []) :=
  ⟨by decide, webWx_empty_content sampleEnv sampleEmpty rfl (by decide)⟩

/-- C7, as the code has it: when the fetch of the source page fails, `get_voice`
returns the error with no URL and starts no download task; `webWx` drops that
error and answers with status 200 and the reply envelope for recipient and sender
swapped whose content is empty. -/
theorem webWx_fetch_failure (env : Env) (r : Request) (e : String)
    (hpost : r.Method = "POST")
    (hcontent : (env.unmarshal r.Body {}).1.Content ≠ "")
    (hfail : env.httpGet (env.unmarshal r.Body {}).1.Content = .error e) :
    get_voice env (env.unmarshal r.Body {}).1.Content "/home/glyme/voice_store/" =
      { voice_path := [], err := some e,
        events := [Event.httpGet (env.unmarshal r.Body {}).1.Content] } ∧
    webWx env r =
      ({ wroteHeader := true, status := 200,
         body := replyText env (env.unmarshal r.Body {}).1.ToUserName
           (env.unmarshal r.Body {}).1.FromUserName "" },
       [Event.httpGet (env.unmarshal r.Body {}).1.Content,
        Event.replyText (env.unmarshal r.Body {}).1.ToUserName
          (env.unmarshal r.Body {}).1.FromUserName ""]) := by
  have hne : ¬ ("POST" : String) = "GET" := by decide
  have hg : get_voice env (env.unmarshal r.Body {}).1.Content "/home/glyme/voice_store/" =
      { voice_path := [], err := some e,
        events := [Event.httpGet (env.unmarshal r.Body {}).1.Content] } := by
    simp only [get_voice, hfail]
  refine ⟨hg, ?_⟩
  simp only [webWx, hpost, hne, if_false, if_true, message, hcontent, hg, Fprint_fresh]
  rfl

/-- With the network down the sample message is still answered with a reply. -/
theorem webWx_fetch_failure_witness :
    webWx offlineEnv sampleMessage =
      ({ wroteHeader := true, status := 200, body := replyText offlineEnv "gh_1" "user_1" "" },
       [Event.httpGet "http://mp.weixin.qq.com/s/1", Event.replyText "gh_1" "user_1" ""]) :=
  (webWx_fetch_failure offlineEnv sampleMessage "network is unreachable" rfl (by decide)
    rfl).2

/-- C7 as stated fails: with the network down the fetch of the source page
fails, and `webWx` still writes a reply envelope. -/
theorem webWx_fetch_failure_still_replies :
    (get_voice offlineEnv "http://mp.weixin.qq.com/s/1" "/home/glyme/voice_store/").err =
      some "network is unreachable" ∧
    (webWx offlineEnv sampleMessage).1.status = 200 ∧
    (webWx offlineEnv sampleMessage).1.body =
      "<xml><ToUserName><![CDATA[user_1]]></ToUserName>" ++
      "<FromUserName><![CDATA[gh_1]]></FromUserName>" ++
      "<CreateTime>1490000001</CreateTime><MsgType><![CDATA[text]]></MsgType>" ++
      "<Content></Content></xml>" ∧
    Event.replyText "gh_1" "user_1" "" ∈ (webWx offlineEnv sampleMessage).2 := by
  decide

/-- C8: for a POST request whose decoded envelope has non-empty `Content`, the
body written is the encoding of the envelope built by `replyText`; in that
envelope the sender is the inbound recipient, the recipient is the inbound sender,
the kind is `text`, and the content is the URLs returned by `get_voice` joined by
line feeds. -/
theorem webWx_reply (env : Env) (r : Request)
    (hpost : r.Method = "POST")
    (hcontent : (env.unmarshal r.Body {}).1.Content ≠ "") :
    ∃ msg : WxMsgText,
      msg.FromUserName.Val = (env.unmarshal r.Body {}).1.ToUserName ∧
      msg.ToUserName.Val = (env.unmarshal r.Body {}).1.FromUserName ∧
      msg.MsgType.Val = "text" ∧
      msg.Content.Val = join (get_voice env (env.unmarshal r.Body {}).1.Content
        "/home/glyme/voice_store/").voice_path "\n" ∧
      (webWx env r).1.status = 200 ∧
      (webWx env r).1.body =
        (match env.marshal msg with
          | .error _ => ""
          | .ok output => output) ∧
      Event.replyText msg.FromUserName.Val msg.ToUserName.Val msg.Content.Val ∈
        (webWx env r).2 := by
  have hne : ¬ ("POST" : String) = "GET" := by decide
  refine ⟨replyEnvelope env (env.unmarshal r.Body {}).1.ToUserName
    (env.unmarshal r.Body {}).1.FromUserName
    (join (get_voice env (env.unmarshal r.Body {}).1.Content
      "/home/glyme/voice_store/").voice_path "\n"), rfl, rfl, rfl, rfl, ?_, ?_, ?_⟩
  · simp only [webWx, hpost, hne, if_false, if_true, message, hcontent, Fprint_fresh]
  · simp only [webWx, hpost, hne, if_false, if_true, message, hcontent, Fprint_fresh]
    rfl
  · simp only [webWx, hpost, hne, if_false, if_true, message, hcontent, replyEnvelope]
    simp

/-- The reply to the sample message lists the two asset URLs. -/
theorem webWx_reply_witness :
    ∃ msg : WxMsgText,
      msg.FromUserName.Val = "gh_1" ∧ msg.ToUserName.Val = "user_1" ∧
      msg.MsgType.Val = "text" ∧
      msg.Content.Val =
        "http://118.89.22.190/voice/0f8fad5bd9cb469fa16570867728950e0.mp3\n" ++
        "http://118.89.22.190/voice/0f8fad5bd9cb469fa16570867728950e1.mp3" ∧
      (webWx sampleEnv sampleMessage).1.body =
        (match sampleMarshal msg with
          | .error _ => ""
          | .ok output => output) := by
  obtain ⟨msg, h1, h2, h3, h4, _, h6, _⟩ :=
    webWx_reply sampleEnv sampleMessage rfl (by decide)
  exact ⟨msg, h1, h2, h3, h4.trans (by decide), h6⟩

/-! ## Uniqueness of file names -/

/-- C9 as stated fails: two distinct tokens and two indices whose file names
coincide. -/
theorem filename_collision :
    "a" ≠ "a1" ∧ (("a", 11) : String × Nat) ≠ ("a1", 1) ∧ filename "a" 11 = filename "a1" 1 := by
  decide

/-- C9, amended: for batch tokens of the same length, and so for one token within
a batch, different pairs of token and index give different file names and
different paths in the storage directory. -/
theorem filename_unique (g1 g2 : String) (i j : Nat)
    (hlen : g1.length = g2.length)
    (hne : (g1, i) ≠ (g2, j)) :
    filename g1 i ≠ filename g2 j ∧
    ∀ to_dir : String, to_dir ++ filename g1 i ≠ to_dir ++ filename g2 j := by
  have h1 : filename g1 i ≠ filename g2 j := by
    intro h
    obtain ⟨hg, hi⟩ := filename_injective_of_length g1 g2 i j hlen h
    exact hne (by rw [hg, hi])
  refine ⟨h1, fun to_dir h => h1 ?_⟩
  have hd := congrArg String.data h
  simp only [String.data_append] at hd
  exact String.ext (List.append_cancel_left hd)

/-- Two tokens of 32 characters give different file names. -/
theorem filename_unique_witness :
    filename "0f8fad5bd9cb469fa16570867728950e" 11 ≠
      filename "0f8fad5bd9cb469fa16570867728950f" 1 :=
  (filename_unique "0f8fad5bd9cb469fa16570867728950e" "0f8fad5bd9cb469fa16570867728950f" 11 1
    (by decide) (by decide)).1

end Mpvoice
